import Mathlib

/-!
# Typing test (`src/Typing-test/src/App.jsx`)

A shallow embedding of the React component `App` and of the functions it
closes over: `resetTest`, `handleInputChange`, `calculateResult` and the
timer effect.

Modelling conventions.

* A JavaScript string is the list of its UTF-16 code units, each a number
  below 65536; `utf16` encodes a string literal, a code point above U+FFFF
  becoming a surrogate pair.
* A JavaScript number is `JSNum`: a finite value, `Infinity`, `-Infinity` or
  `NaN`.  A finite value is kept as the rational it is equal to.  Division,
  multiplication and subtraction round their exact result to the nearest
  number with a 53-bit significand, a tie going to the even significand
  (`toDouble`), as IEEE 754 binary64 does; division by zero and the
  propagation of `NaN` and of the infinities follow IEEE 754.  The exponent
  range is not bounded and the sign of zero is not kept: a string shorter than
  2^53 code units and valid dates keep every value of this program far inside
  the range of the normal numbers.
* A `Date` is its time value, an integer number of milliseconds; `null` is
  `none`.  Every `new Date()` is a parameter of the function that reads it.
* A React state variable is a field of `AppState`.  A handler reads the state of
  the render that created it and queues updates; the functions below take that
  rendered state and return the state of the next render.
* Audio playback and focus handling change no state and are left out.
-/

namespace TypingTest

/-! ## JavaScript values -/

/-- A UTF-16 code unit. -/
abbrev CodeUnit := Fin 65536

/-- A JavaScript string, as the list of its code units. -/
abbrev JSString := List CodeUnit

/-- The code units of one code point: itself when it is below 65536, and a
surrogate pair otherwise. -/
def utf16Char (c : Char) : JSString :=
  if c.toNat < 65536 then [Fin.ofNat c.toNat]
  else
    [Fin.ofNat (55296 + (c.toNat - 65536) / 1024),
     Fin.ofNat (56320 + (c.toNat - 65536) % 1024)]

/-- The JavaScript string written as the literal `s`. -/
def utf16 (s : String) : JSString :=
  s.toList.flatMap utf16Char

/-- The integer nearest to `x`, a tie going to the even one. -/
def roundEven (x : ℚ) : ℤ :=
  if x - ⌊x⌋ < 1 / 2 then ⌊x⌋
  else if 1 / 2 < x - ⌊x⌋ then ⌊x⌋ + 1
  else if ⌊x⌋ % 2 = 0 then ⌊x⌋ else ⌊x⌋ + 1

/-- The number with a 53-bit significand nearest to `q`, a tie going to the
even significand: for `2 ^ e ≤ |q| < 2 ^ (e + 1)` the unit in the last place is
`2 ^ (e - 52)` and `q` is rounded to a multiple of it. -/
def toDouble (q : ℚ) : ℚ :=
  if q = 0 then 0
  else (roundEven (q / 2 ^ (Int.log 2 |q| - 52)) : ℚ) * 2 ^ (Int.log 2 |q| - 52)

/-- A JavaScript number. -/
inductive JSNum where
  | fin (q : ℚ)
  | posInf
  | negInf
  | nan
  deriving DecidableEq

namespace JSNum

/-- The JavaScript operator `/`. -/
def div : JSNum → JSNum → JSNum
  | nan, _ => nan
  | _, nan => nan
  | fin a, fin b =>
      if b = 0 then (if a = 0 then nan else if 0 < a then posInf else negInf)
      else fin (toDouble (a / b))
  | fin _, posInf => fin 0
  | fin _, negInf => fin 0
  | posInf, fin b => if 0 ≤ b then posInf else negInf
  | negInf, fin b => if 0 ≤ b then negInf else posInf
  | posInf, posInf => nan
  | posInf, negInf => nan
  | negInf, posInf => nan
  | negInf, negInf => nan

/-- The JavaScript operator `*`. -/
def mul : JSNum → JSNum → JSNum
  | nan, _ => nan
  | _, nan => nan
  | fin a, fin b => fin (toDouble (a * b))
  | fin a, posInf => if a = 0 then nan else if 0 < a then posInf else negInf
  | fin a, negInf => if a = 0 then nan else if 0 < a then negInf else posInf
  | posInf, fin b => if b = 0 then nan else if 0 < b then posInf else negInf
  | negInf, fin b => if b = 0 then nan else if 0 < b then negInf else posInf
  | posInf, posInf => posInf
  | posInf, negInf => negInf
  | negInf, posInf => negInf
  | negInf, negInf => posInf

/-- The function `Math.round`: the integer nearest to the argument, a tie going
to the larger one; `NaN` and the infinities are returned as they are. -/
def round : JSNum → JSNum
  | fin q => fin (⌊q + 1 / 2⌋ : ℤ)
  | x => x

/-- The value denoted by the string `x.toFixed(2)`: the multiple of 1/100
nearest to the exact value of the number `x`, a tie going away from zero; `NaN`
and the infinities print as themselves. -/
def toFixed2 : JSNum → JSNum
  | fin q =>
      if 0 ≤ q then fin ((⌊q * 100 + 1 / 2⌋ : ℤ) / 100)
      else fin (-((⌊-q * 100 + 1 / 2⌋ : ℤ) / 100))
  | x => x

end JSNum

/-- The number a `Date` or `null` converts to in `end - start`: its time value,
and `0` for `null`. -/
def toNumber : Option ℤ → ℚ
  | some t => (t : ℚ)
  | none => 0

/-- The expression `end - start` of line 81, for the `Date` `end` and the `Date` or
`null` `start`. -/
def dateSub (end_ : ℤ) (start : Option ℤ) : JSNum :=
  JSNum.fin (toDouble ((end_ : ℚ) - toNumber start))

/-! ## Strings: `trim`, `split(/\s+/)` and indexing -/

/-- The code units matched by `\s`, which are also the ones `trim` strips:
TAB, LF, VT, FF, CR, SP, NBSP, U+1680, U+2000 to U+200A, U+2028, U+2029, U+202F,
U+205F, U+3000 and U+FEFF. -/
def isWhiteSpace (c : CodeUnit) : Bool :=
  let n := c.val
  n == 9 || n == 10 || n == 11 || n == 12 || n == 13 || n == 32 || n == 160
    || n == 5760 || (8192 ≤ n && n ≤ 8202) || n == 8232 || n == 8233
    || n == 8239 || n == 8287 || n == 12288 || n == 65279

/-- The method `String.prototype.trim`. -/
def trim (s : JSString) : JSString :=
  ((s.dropWhile isWhiteSpace).reverse.dropWhile isWhiteSpace).reverse

/-- The scan of `split(/\s+/)`: `cur` is the piece being read and `inSep` says
that the previous code unit was part of a separator.  A separator is a maximal
run of white space; the pieces before, between and after the separators are
returned, the empty ones included. -/
def splitGo : JSString → Bool → JSString → List JSString
  | [], _, cur => [cur]
  | c :: cs, inSep, cur =>
      if isWhiteSpace c then
        (if inSep then splitGo cs true cur else cur :: splitGo cs true [])
      else splitGo cs false (cur ++ [c])

/-- The call `s.split(/\s+/)`. -/
def splitWhiteSpace (s : JSString) : List JSString :=
  splitGo s false []

/-- The expression `text.trim().split(/\s+/).length` of line 82. -/
def words (text : JSString) : ℕ :=
  (splitWhiteSpace (trim text)).length

/-- The expression
`input.split("").filter((c, i) => c === text[i]).length` of line 84: the number
of code units of `input` equal to the code unit of `text` at the same index,
`text[i]` being `undefined` past the end of `text`. -/
def correctChars (input text : JSString) : ℕ :=
  (input.enum.filter (fun p => decide (text[p.1]? = some p.2))).length

/-! ## The component state -/

/-- The field `time` of a result: the number `60`, or the string produced by
`toFixed(2)`, kept as the value the string denotes. -/
inductive TimeField where
  | num (n : JSNum)
  | str (v : JSNum)
  deriving DecidableEq

/-- The object `res` of lines 87 to 91. -/
structure Result where
  speed : JSNum
  accuracy : JSNum
  time : TimeField
  deriving DecidableEq

/-- The state variables of `App` (lines 18 to 25). -/
structure AppState where
  text : JSString
  input : JSString
  startTime : Option ℤ
  endTime : Option ℤ
  result : Option Result
  resultHistory : List Result
  timer : ℤ
  soundEnabled : Bool
  deriving DecidableEq

/-- The corpus `sentences` (lines 4 to 10). -/
def sentences : List JSString :=
  [ utf16 "The quick brown fox\njumps over the lazy dog.",
    utf16 "Life is what happens\nwhen you\x27re busy making other plans.",
    utf16 "In the midst of winter,\nI found an invincible summer.",
    utf16 "You have within you right now\neverything you need to handle life.",
    utf16 ("He sent her love letters for 50 years\u2014\nnever once mailed. " ++
      "After his funeral,\nshe found them. She wrote him back.") ]

/-- The state of the first render (the `useState` defaults). -/
def initialState : AppState :=
  { text := [], input := [], startTime := none, endTime := none, result := none,
    resultHistory := [], timer := 60, soundEnabled := true }

/-- The function `resetTest` (lines 45 to 54); `random` is the sentence drawn
from the corpus. -/
def resetTest (s : AppState) (random : JSString) : AppState :=
  { s with text := random, input := [], startTime := none, endTime := none,
           result := none, timer := 60 }

/-- The object `res` that `calculateResult` builds (lines 81 to 91).  `text` and
`input` are those of the render `s` whose closure is running. -/
def calculateResultRes (s : AppState) (start : Option ℤ) (end_ : ℤ)
    (isTimeout : Bool) : Result :=
  let timeTaken := JSNum.div (dateSub end_ start) (JSNum.fin 1000)
  let wordCount := words s.text
  let speed := JSNum.round (JSNum.mul (JSNum.div (JSNum.fin wordCount) timeTaken) (JSNum.fin 60))
  let correct := correctChars s.input s.text
  let accuracy :=
    JSNum.round (JSNum.mul (JSNum.div (JSNum.fin correct) (JSNum.fin s.text.length)) (JSNum.fin 100))
  { speed := if isTimeout then JSNum.fin 0 else speed,
    accuracy := accuracy,
    time := if isTimeout then TimeField.num (JSNum.fin 60)
            else TimeField.str (JSNum.toFixed2 timeTaken) }

/-- The function `calculateResult` (lines 80 to 95).  `s` is the render whose
closure is running and `pending` the state with the updates already queued by
the caller; `setResult` and `setResultHistory` are applied to `pending`. -/
def calculateResult (s pending : AppState) (start : Option ℤ) (end_ : ℤ)
    (isTimeout : Bool) : AppState :=
  let res := calculateResultRes s start end_ isTimeout
  { pending with result := some res, resultHistory := res :: pending.resultHistory }

/-- The function `handleInputChange` (lines 56 to 78) run in the render `s` on
the new value `val`; `now₁` and `now₂` are the two readings `new Date()` of
lines 61 and 73. -/
def handleInputChange (s : AppState) (val : JSString) (now₁ now₂ : ℤ) : AppState :=
  let s₁ := { s with input := val }
  let s₂ := if s.startTime.isNone ∧ val.length > 0 then { s₁ with startTime := some now₁ } else s₁
  if val = s.text then
    calculateResult s { s₂ with endTime := some now₂ } s.startTime now₂ false
  else s₂

/-- The attribute `disabled` of the textarea (line 128). -/
def disabled (s : AppState) : Bool :=
  s.result.isSome || s.timer == 0

/-- An input change as the textarea delivers it: a disabled textarea fires no
`onChange`, an enabled one calls `handleInputChange`. -/
def onChange (s : AppState) (val : JSString) (now₁ now₂ : ℤ) : AppState :=
  if disabled s then s else handleInputChange s val now₁ now₂

/-- The condition of line 34 under which the effect installs the interval. -/
def intervalArmed (s : AppState) : Bool :=
  s.startTime.isSome && s.endTime.isNone && decide (s.timer > 0)

/-- One period of the interval of lines 35 to 37: the callback runs only while an
interval is installed (the cleanup of line 42 clears it on every re-run of the
effect). -/
def tick (s : AppState) : AppState :=
  if intervalArmed s then { s with timer := s.timer - 1 } else s

/-- The second half of the effect (lines 39 to 41); `now` is its `new Date()`. -/
def timeoutEffect (s : AppState) (now : ℤ) : AppState :=
  if s.timer = 0 ∧ s.result.isNone then calculateResult s s s.startTime now true else s

/-- The dependency array of the effect (line 43). -/
def deps (s : AppState) : Option ℤ × ℤ × Option ℤ × Option Result :=
  (s.startTime, s.timer, s.endTime, s.result)

/-- The effect after a render: it runs when a dependency has changed since the
previous render `prev`. -/
def runEffect (prev s : AppState) (now : ℤ) : AppState :=
  if deps s = deps prev then s else timeoutEffect s now

/-- The events of a session. -/
inductive Event where
  | change (val : JSString) (now₁ now₂ : ℤ)
  | tick (now : ℤ)

/-- One event, the render it causes and the effect of that render. -/
def step (s : AppState) : Event → AppState
  | Event.change val now₁ now₂ => runEffect s (onChange s val now₁ now₂) now₂
  | Event.tick now => runEffect s (tick s) now

/-- A sequence of events, in order. -/
def run (s : AppState) (evs : List Event) : AppState :=
  evs.foldl step s

/-- The input changes of a user who types `target` one code unit at a time:
the `k`-th change carries the prefix of length `k` and happens at `clock k`. -/
def typeExactly (target : JSString) (clock : ℕ → ℤ) : List Event :=
  (List.range target.length).map
    (fun k => Event.change (target.take (k + 1)) (clock (k + 1)) (clock (k + 1)))

/-! ## Specification-side definitions -/

/-- The `correctCharCount` of the specification: the number of indices `i` below
the length of the target with `inputBuffer[i] == targetText[i]`, an index past
the end of the input never matching. -/
def correctCharCount (inputBuffer targetText : JSString) : ℕ :=
  ((List.range targetText.length).filter
    (fun i => decide (inputBuffer[i]? = targetText[i]?))).length

/-- The tokens of the specification: the non-empty pieces between white-space
code units. -/
def tokens (s : JSString) : List JSString :=
  (s.splitOnP isWhiteSpace).filter (fun w => !w.isEmpty)

/-- The `wordCount` of the specification: the number of white-space-delimited
tokens of the target after trimming. -/
def wordCount (targetText : JSString) : ℕ :=
  (tokens (trim targetText)).length

/-- A render with the given target and input and nothing else set; the examples
evaluate `calculateResult` in it. -/
def scoring (text input : JSString) : AppState :=
  { initialState with text := text, input := input }

/-- The invariant of a session whose history was `h₀` when it started: the timer
stays between 0 and 60, a result is present exactly when the timer has expired
or the target has been completed, and the history is `h₀` with the result of the
session, if any, in front. -/
structure Inv (h₀ : List Result) (s : AppState) : Prop where
  timer_nonneg : 0 ≤ s.timer
  timer_le : s.timer ≤ 60
  finished : s.result.isSome = true → s.endTime.isSome = true ∨ s.timer = 0
  completed : s.endTime.isSome = true → s.result.isSome = true
  expired : s.timer = 0 → s.result.isSome = true
  history : s.resultHistory = s.result.toList ++ h₀

/-- The render reached after the first `k` code units of `target` have been
typed in a session started from `s₀`, the first of them at instant `t₁`: the
input is the prefix of length `k` and the start timestamp is set once `k` is
positive. -/
def typed (s₀ : AppState) (target : JSString) (t₁ : ℤ) (k : ℕ) : AppState :=
  { resetTest s₀ target with
      input := target.take k,
      startTime := if k = 0 then none else some t₁ }

/-- Whether the scan of `split(/\s+/)` ends inside a separator, having started
with the flag `inSep`. -/
def finalSep : JSString → Bool → Bool
  | [], inSep => inSep
  | c :: cs, _ => finalSep cs (isWhiteSpace c)

/-- Whether the string starts with a code unit that is not white space. -/
def headTok : JSString → Bool
  | [] => false
  | c :: _ => !isWhiteSpace c

/-- The value of `timeTaken` (line 81): the elapsed milliseconds, as a number,
divided by 1000. -/
def timeTaken (start : Option ℤ) (end_ : ℤ) : ℚ :=
  toDouble (toDouble ((end_ : ℚ) - toNumber start) / 1000)

/-! ## Counting matching positions -/

/-- Position-wise agreement of two strings, by recursion on both. -/
def matchCount : JSString → JSString → ℕ
  | a :: as, b :: bs => (if a = b then 1 else 0) + matchCount as bs
  | _, _ => 0

theorem correctChars_nil (text : JSString) : correctChars [] text = 0 := by
  simp [correctChars]

theorem correctChars_cons_nil (a : CodeUnit) (as : JSString) :
    correctChars (a :: as) [] = 0 := by
  simp [correctChars]

theorem correctChars_cons_cons (a b : CodeUnit) (as bs : JSString) :
    correctChars (a :: as) (b :: bs) = (if a = b then 1 else 0) + correctChars as bs := by
  unfold correctChars
  rw [List.enum_cons, ← List.map_fst_add_enumFrom_eq_enumFrom as 1 0, List.filter_cons,
    List.filter_map]
  have hfun : ((fun p : ℕ × CodeUnit => decide ((b :: bs)[p.1]? = some p.2)) ∘
      Prod.map (fun x => x + 1) id) = fun p : ℕ × CodeUnit => decide (bs[p.1]? = some p.2) := by
    funext p
    simp
  rw [hfun]
  by_cases hab : a = b
  · subst hab
    simp [List.enum, Nat.add_comm]
  · have hba : ¬ b = a := fun h => hab h.symm
    simp [List.enum, hab, hba]

theorem correctChars_eq_matchCount (input text : JSString) :
    correctChars input text = matchCount input text := by
  induction input generalizing text with
  | nil => simp [correctChars_nil, matchCount]
  | cons a as ih =>
    cases text with
    | nil => simp [correctChars_cons_nil, matchCount]
    | cons b bs => rw [correctChars_cons_cons, ih, matchCount]

theorem correctCharCount_nil_left (text : JSString) : correctCharCount [] text = 0 := by
  unfold correctCharCount
  rw [List.length_eq_zero, List.filter_eq_nil_iff]
  intro i hi
  have hlt : i < text.length := List.mem_range.mp hi
  simp [List.getElem?_eq_getElem hlt]

theorem correctCharCount_nil_right (input : JSString) : correctCharCount input [] = 0 := by
  simp [correctCharCount]

theorem correctCharCount_cons_cons (a b : CodeUnit) (as bs : JSString) :
    correctCharCount (a :: as) (b :: bs) =
      (if a = b then 1 else 0) + correctCharCount as bs := by
  unfold correctCharCount
  rw [List.length_cons, List.range_succ_eq_map, List.filter_cons, List.filter_map]
  have hfun : ((fun i : ℕ => decide ((a :: as)[i]? = (b :: bs)[i]?)) ∘ Nat.succ) =
      fun i : ℕ => decide (as[i]? = bs[i]?) := by
    funext i
    simp
  rw [hfun]
  by_cases hab : a = b
  · subst hab
    simp [Nat.add_comm]
  · simp [hab]

theorem correctCharCount_eq_matchCount (input text : JSString) :
    correctCharCount input text = matchCount input text := by
  induction input generalizing text with
  | nil => simp [correctCharCount_nil_left, matchCount]
  | cons a as ih =>
    cases text with
    | nil => simp [correctCharCount_nil_right, matchCount]
    | cons b bs => rw [correctCharCount_cons_cons, ih, matchCount]

theorem matchCount_le_right (input text : JSString) :
    matchCount input text ≤ text.length := by
  induction input generalizing text with
  | nil => simp [matchCount]
  | cons a as ih =>
    cases text with
    | nil => simp [matchCount]
    | cons b bs =>
      have h := ih bs
      simp only [matchCount, List.length_cons]
      split <;> omega

theorem matchCount_self (text : JSString) : matchCount text text = text.length := by
  induction text with
  | nil => simp [matchCount]
  | cons a as ih => simp [matchCount, ih, Nat.add_comm]


/-! ## Rounding to a 53-bit significand -/

theorem roundEven_cases (x : ℚ) : roundEven x = ⌊x⌋ ∨ roundEven x = ⌊x⌋ + 1 := by
  unfold roundEven
  split
  · exact Or.inl rfl
  · split
    · exact Or.inr rfl
    · split
      · exact Or.inl rfl
      · exact Or.inr rfl

theorem roundEven_eq_of_near (x : ℚ) (m : ℤ) (h₁ : (m : ℚ) - 1 / 2 < x)
    (h₂ : x < (m : ℚ) + 1 / 2) : roundEven x = m := by
  by_cases hx : (m : ℚ) ≤ x
  · have hf : ⌊x⌋ = m := by
      rw [Int.floor_eq_iff]
      exact ⟨hx, by linarith⟩
    unfold roundEven
    rw [hf, if_pos (by linarith)]
  · have hx' : x < m := lt_of_not_le hx
    have hf : ⌊x⌋ = m - 1 := by
      rw [Int.floor_eq_iff]
      push_cast
      exact ⟨by linarith, by linarith⟩
    unfold roundEven
    rw [hf, if_neg (by push_cast; linarith), if_pos (by push_cast; linarith)]
    ring

theorem roundEven_intCast (m : ℤ) : roundEven (m : ℚ) = m :=
  roundEven_eq_of_near _ m (by linarith) (by linarith)

theorem roundEven_eq_of_tie (x : ℚ) (m : ℤ) (h : x = (m : ℚ) + 1 / 2) (heven : m % 2 = 0) :
    roundEven x = m := by
  have hf : ⌊x⌋ = m := by
    rw [Int.floor_eq_iff, h]
    constructor <;> linarith
  unfold roundEven
  rw [hf, if_neg (by rw [h]; linarith), if_neg (by rw [h]; linarith), if_pos heven]

theorem le_roundEven (x : ℚ) (m : ℤ) (h : (m : ℚ) ≤ x) : m ≤ roundEven x := by
  have hf : m ≤ ⌊x⌋ := Int.le_floor.mpr h
  rcases roundEven_cases x with h' | h' <;> omega

theorem roundEven_le (x : ℚ) (m : ℤ) (h : x ≤ (m : ℚ)) : roundEven x ≤ m := by
  rcases eq_or_lt_of_le h with heq | hlt
  · rw [heq, roundEven_intCast]
  · have hf : ⌊x⌋ < m := Int.floor_lt.mpr hlt
    rcases roundEven_cases x with h' | h' <;> omega

theorem zpow_log_le (q : ℚ) (hq : 0 < q) : (2 : ℚ) ^ Int.log 2 q ≤ q := by
  have h := @Int.zpow_log_le_self ℚ _ _ 2 q (by norm_num) hq
  exact_mod_cast h

theorem log_two_eq (q : ℚ) (e : ℤ) (h₁ : (2 : ℚ) ^ e ≤ q) (h₂ : q < (2 : ℚ) ^ (e + 1)) :
    Int.log 2 q = e := by
  have hq : 0 < q := lt_of_lt_of_le (by positivity) h₁
  have h₁' : e ≤ Int.log 2 q :=
    (Int.zpow_le_iff_le_log (by norm_num) hq).mp (by exact_mod_cast h₁)
  have h₂' : Int.log 2 q < e + 1 :=
    (Int.lt_zpow_iff_log_lt (by norm_num) hq).mp (by exact_mod_cast h₂)
  omega

/-- The value of `toDouble q` for a positive `q`, from the exponent `e` of `q`
and the significand `m` nearest to `q`. -/
theorem toDouble_eval (q v : ℚ) (e m : ℤ) (h₁ : (2 : ℚ) ^ e ≤ q) (h₂ : q < (2 : ℚ) ^ (e + 1))
    (h₃ : (m : ℚ) - 1 / 2 < q / 2 ^ (e - 52)) (h₄ : q / 2 ^ (e - 52) < (m : ℚ) + 1 / 2)
    (hv : v = (m : ℚ) * 2 ^ (e - 52)) :
    toDouble q = v := by
  have hq : 0 < q := lt_of_lt_of_le (by positivity) h₁
  unfold toDouble
  rw [if_neg hq.ne.symm, abs_of_pos hq, log_two_eq q e h₁ h₂, roundEven_eq_of_near _ m h₃ h₄,
    hv]

/-- The value of `toDouble q` for a positive `q` half-way between two
significands, the lower one, `m`, being even. -/
theorem toDouble_eval_tie (q v : ℚ) (e m : ℤ) (h₁ : (2 : ℚ) ^ e ≤ q)
    (h₂ : q < (2 : ℚ) ^ (e + 1)) (h₃ : q / 2 ^ (e - 52) = (m : ℚ) + 1 / 2)
    (heven : m % 2 = 0) (hv : v = (m : ℚ) * 2 ^ (e - 52)) :
    toDouble q = v := by
  have hq : 0 < q := lt_of_lt_of_le (by positivity) h₁
  unfold toDouble
  rw [if_neg hq.ne.symm, abs_of_pos hq, log_two_eq q e h₁ h₂,
    roundEven_eq_of_tie _ m h₃ heven, hv]

theorem toDouble_zero : toDouble 0 = 0 := by
  simp [toDouble]

theorem toDouble_pos (q : ℚ) (hq : 0 < q) : 0 < toDouble q := by
  unfold toDouble
  rw [if_neg hq.ne.symm, abs_of_pos hq]
  have hu : (0 : ℚ) < 2 ^ (Int.log 2 q - 52) := by positivity
  have hdiv : ((2 ^ 52 : ℤ) : ℚ) ≤ q / 2 ^ (Int.log 2 q - 52) := by
    rw [le_div_iff₀ hu]
    have h : ((2 ^ 52 : ℤ) : ℚ) * 2 ^ (Int.log 2 q - 52) = 2 ^ (Int.log 2 q) := by
      have h52 : ((2 ^ 52 : ℤ) : ℚ) = (2 : ℚ) ^ (52 : ℤ) := by norm_num
      rw [h52, ← zpow_add₀ (by norm_num : (2 : ℚ) ≠ 0)]
      congr 1
      ring
    rw [h]
    exact zpow_log_le q hq
  have hr := le_roundEven _ _ hdiv
  have hr' : (0 : ℚ) < (roundEven (q / 2 ^ (Int.log 2 q - 52)) : ℚ) := by
    have : (0 : ℤ) < roundEven (q / 2 ^ (Int.log 2 q - 52)) :=
      lt_of_lt_of_le (by norm_num) hr
    exact_mod_cast this
  exact mul_pos hr' hu

theorem toDouble_nonneg (q : ℚ) (hq : 0 ≤ q) : 0 ≤ toDouble q := by
  rcases eq_or_lt_of_le hq with h | h
  · rw [← h, toDouble_zero]
  · exact (toDouble_pos q h).le

/-- Rounding does not pass a bound that has a significand below `2 ^ 53`. -/
theorem toDouble_le (q : ℚ) (m : ℕ) (k : ℤ) (hq : 0 ≤ q) (hm : m < 2 ^ 53)
    (h : q ≤ (m : ℚ) * 2 ^ k) : toDouble q ≤ (m : ℚ) * 2 ^ k := by
  rcases eq_or_lt_of_le hq with hq0 | hq
  · rw [← hq0, toDouble_zero]
    positivity
  unfold toDouble
  rw [if_neg hq.ne.symm, abs_of_pos hq]
  have hlog : (2 : ℚ) ^ Int.log 2 q ≤ q := zpow_log_le q hq
  generalize Int.log 2 q = e at hlog ⊢
  have hu : (0 : ℚ) < 2 ^ (e - 52) := by positivity
  have hmq : (m : ℚ) < 2 ^ (53 : ℤ) := by
    have h53 : ((2 ^ 53 : ℕ) : ℚ) = (2 : ℚ) ^ (53 : ℤ) := by norm_num
    rw [← h53]
    exact_mod_cast hm
  have hmpos : (0 : ℚ) < m := by
    by_contra hcon
    have hm0 : (m : ℚ) = 0 := le_antisymm (not_lt.mp hcon) (Nat.cast_nonneg m)
    rw [hm0, zero_mul] at h
    linarith
  have hk : e - 52 ≤ k := by
    by_contra hcon
    have hk' : k ≤ e - 53 := by omega
    have h2k : (2 : ℚ) ^ k ≤ 2 ^ (e - 53) := zpow_le_zpow_right₀ (by norm_num) hk'
    have hlt : (m : ℚ) * 2 ^ k < 2 ^ (53 : ℤ) * 2 ^ (e - 53) :=
      calc (m : ℚ) * 2 ^ k ≤ m * 2 ^ (e - 53) := mul_le_mul_of_nonneg_left h2k hmpos.le
        _ < 2 ^ (53 : ℤ) * 2 ^ (e - 53) := mul_lt_mul_of_pos_right hmq (by positivity)
    rw [← zpow_add₀ (by norm_num : (2 : ℚ) ≠ 0)] at hlt
    have h53 : (53 : ℤ) + (e - 53) = e := by ring
    rw [h53] at hlt
    linarith
  obtain ⟨j, hj⟩ : ∃ j : ℕ, k = (e - 52) + j := ⟨(k - (e - 52)).toNat, by omega⟩
  have hbound : (m : ℚ) * 2 ^ k = ((m * 2 ^ j : ℕ) : ℤ) * 2 ^ (e - 52) := by
    rw [hj, zpow_add₀ (by norm_num : (2 : ℚ) ≠ 0)]
    push_cast
    rw [zpow_natCast]
    ring
  rw [hbound] at h ⊢
  have hdiv : q / 2 ^ (e - 52) ≤ (((m * 2 ^ j : ℕ) : ℤ) : ℚ) := by
    rw [div_le_iff₀ hu]
    exact h
  have hr := roundEven_le _ _ hdiv
  have hr' : (roundEven (q / 2 ^ (e - 52)) : ℚ) ≤ (((m * 2 ^ j : ℕ) : ℤ) : ℚ) := by
    exact_mod_cast hr
  exact mul_le_mul_of_nonneg_right hr' hu.le

theorem toDouble_le_one (q : ℚ) (hq : 0 ≤ q) (h : q ≤ 1) : toDouble q ≤ 1 := by
  have := toDouble_le q 1 0 hq (by norm_num) (by simpa using h)
  simpa using this

theorem toDouble_le_hundred (q : ℚ) (hq : 0 ≤ q) (h : q ≤ 100) : toDouble q ≤ 100 := by
  have := toDouble_le q 100 0 hq (by norm_num) (by simpa using h)
  simpa using this

/-! ## The scorer in closed form -/

theorem JSNum.div_fin (a b : ℚ) (hb : b ≠ 0) :
    JSNum.div (JSNum.fin a) (JSNum.fin b) = JSNum.fin (toDouble (a / b)) := by
  simp [JSNum.div, hb]

theorem JSNum.mul_fin (a b : ℚ) :
    JSNum.mul (JSNum.fin a) (JSNum.fin b) = JSNum.fin (toDouble (a * b)) := rfl

theorem JSNum.round_fin (q : ℚ) : JSNum.round (JSNum.fin q) = JSNum.fin (⌊q + 1 / 2⌋ : ℤ) := rfl

theorem timeTaken_eq (start : Option ℤ) (end_ : ℤ) :
    JSNum.div (dateSub end_ start) (JSNum.fin 1000) = JSNum.fin (timeTaken start end_) := by
  simp [JSNum.div, dateSub, timeTaken]

theorem timeTaken_pos (start : Option ℤ) (end_ : ℤ) (h : toNumber start < (end_ : ℚ)) :
    0 < timeTaken start end_ := by
  unfold timeTaken
  apply toDouble_pos
  apply div_pos
  · exact toDouble_pos _ (by linarith)
  · norm_num

theorem timeTaken_nonneg (start : Option ℤ) (end_ : ℤ) (h : toNumber start ≤ (end_ : ℚ)) :
    0 ≤ timeTaken start end_ := by
  unfold timeTaken
  apply toDouble_nonneg
  apply div_nonneg
  · exact toDouble_nonneg _ (by linarith)
  · norm_num

theorem timeTaken_zero (start : Option ℤ) (end_ : ℤ) (h : toNumber start = (end_ : ℚ)) :
    timeTaken start end_ = 0 := by
  simp [timeTaken, h, toDouble_zero]

theorem accuracy_of_nonempty (s : AppState) (start : Option ℤ) (end_ : ℤ) (isTimeout : Bool)
    (htext : s.text ≠ []) :
    (calculateResultRes s start end_ isTimeout).accuracy =
      JSNum.fin (⌊toDouble (toDouble
        ((correctChars s.input s.text : ℚ) / (s.text.length : ℚ)) * 100) + 1 / 2⌋ : ℤ) := by
  have hlen : ((s.text.length : ℕ) : ℚ) ≠ 0 := by
    have : s.text.length ≠ 0 := fun h => htext (List.length_eq_zero.mp h)
    exact_mod_cast this
  simp [calculateResultRes, JSNum.div, JSNum.mul, JSNum.round, hlen]

theorem accuracy_of_empty (s : AppState) (start : Option ℤ) (end_ : ℤ) (isTimeout : Bool)
    (htext : s.text = []) :
    (calculateResultRes s start end_ isTimeout).accuracy = JSNum.nan := by
  simp [calculateResultRes, JSNum.div, JSNum.mul, JSNum.round, htext, correctChars]

theorem speed_of_timeout (s : AppState) (start : Option ℤ) (end_ : ℤ) :
    (calculateResultRes s start end_ true).speed = JSNum.fin 0 := by
  simp [calculateResultRes]

theorem time_of_timeout (s : AppState) (start : Option ℤ) (end_ : ℤ) :
    (calculateResultRes s start end_ true).time = TimeField.num (JSNum.fin 60) := by
  simp [calculateResultRes]

theorem speed_eq (s : AppState) (start : Option ℤ) (end_ : ℤ) :
    (calculateResultRes s start end_ false).speed =
      JSNum.round (JSNum.mul
        (JSNum.div (JSNum.fin (words s.text)) (JSNum.fin (timeTaken start end_)))
        (JSNum.fin 60)) := by
  rw [← timeTaken_eq]
  simp [calculateResultRes]

theorem time_eq (s : AppState) (start : Option ℤ) (end_ : ℤ) :
    (calculateResultRes s start end_ false).time =
      TimeField.str (JSNum.toFixed2 (JSNum.fin (timeTaken start end_))) := by
  rw [← timeTaken_eq]
  simp [calculateResultRes]

theorem speed_ops (s : AppState) (start : Option ℤ) (end_ : ℤ) :
    (calculateResultRes s start end_ false).speed =
      JSNum.round (JSNum.mul
        (JSNum.div (JSNum.fin (words s.text))
          (JSNum.div (dateSub end_ start) (JSNum.fin 1000)))
        (JSNum.fin 60)) := rfl

theorem time_ops (s : AppState) (start : Option ℤ) (end_ : ℤ) :
    (calculateResultRes s start end_ false).time =
      TimeField.str (JSNum.toFixed2 (JSNum.div (dateSub end_ start) (JSNum.fin 1000))) := rfl

theorem speed_of_completion (s : AppState) (start : Option ℤ) (end_ : ℤ)
    (hlt : toNumber start < (end_ : ℚ)) :
    (calculateResultRes s start end_ false).speed =
      JSNum.fin (⌊toDouble (toDouble
        ((words s.text : ℚ) / timeTaken start end_) * 60) + 1 / 2⌋ : ℤ) := by
  have hT : timeTaken start end_ ≠ 0 := (timeTaken_pos start end_ hlt).ne.symm
  rw [speed_eq]
  simp [JSNum.div, JSNum.mul, JSNum.round, hT]

theorem time_of_completion (s : AppState) (start : Option ℤ) (end_ : ℤ)
    (hle : toNumber start ≤ (end_ : ℚ)) :
    (calculateResultRes s start end_ false).time =
      TimeField.str
        (JSNum.fin ((⌊timeTaken start end_ * 100 + 1 / 2⌋ : ℤ) / 100)) := by
  have h0 : (0 : ℚ) ≤ timeTaken start end_ := timeTaken_nonneg start end_ hle
  rw [time_eq]
  simp [JSNum.toFixed2, h0]

theorem splitGo_length_pos (cs : JSString) (inSep : Bool) (cur : JSString) :
    0 < (splitGo cs inSep cur).length := by
  induction cs generalizing inSep cur with
  | nil => simp [splitGo]
  | cons c cs ih =>
    unfold splitGo
    split
    · split
      · exact ih true cur
      · simp
    · exact ih false (cur ++ [c])

theorem words_pos (text : JSString) : 0 < words text :=
  splitGo_length_pos _ _ _

theorem speed_of_zero_elapsed (s : AppState) (start : Option ℤ) (end_ : ℤ)
    (hz : toNumber start = (end_ : ℚ)) :
    (calculateResultRes s start end_ false).speed = JSNum.posInf := by
  have hw : ((words s.text : ℕ) : ℚ) ≠ 0 := by
    have := words_pos s.text
    exact_mod_cast this.ne.symm
  have hwpos : (0 : ℚ) < (words s.text : ℕ) := by
    have := words_pos s.text
    exact_mod_cast this
  rw [speed_eq, timeTaken_zero start end_ hz]
  simp [JSNum.div, JSNum.mul, JSNum.round, hw, hwpos]

/-- The accuracy of a result from the number of matching positions and the
length of the target, the two roundings given by their exponents and
significands. -/
theorem accuracy_eval (s : AppState) (start : Option ℤ) (end_ : ℤ) (isTimeout : Bool)
    (c n : ℕ) (x₁ x₂ : ℚ) (a : ℤ)
    (hc : correctChars s.input s.text = c) (hn : s.text.length = n) (hpos : 0 < n)
    (h₁ : toDouble ((c : ℚ) / (n : ℚ)) = x₁) (h₂ : toDouble (x₁ * 100) = x₂)
    (ha : ⌊x₂ + 1 / 2⌋ = a) :
    (calculateResultRes s start end_ isTimeout).accuracy = JSNum.fin a := by
  have htext : s.text ≠ [] := by
    intro h
    rw [h] at hn
    simp at hn
    omega
  rw [accuracy_of_nonempty s start end_ isTimeout htext, hc, hn, h₁, h₂, ha]

/-- The speed of a completion from the number of words and the elapsed
milliseconds, the roundings given by their values. -/
theorem speed_eval (s : AppState) (start : Option ℤ) (end_ : ℤ)
    (w : ℕ) (t x₁ x₂ : ℚ) (v : ℤ)
    (hlt : toNumber start < (end_ : ℚ))
    (hw : words s.text = w) (ht : timeTaken start end_ = t)
    (h₁ : toDouble ((w : ℚ) / t) = x₁) (h₂ : toDouble (x₁ * 60) = x₂)
    (hv : ⌊x₂ + 1 / 2⌋ = v) :
    (calculateResultRes s start end_ false).speed = JSNum.fin v := by
  rw [speed_of_completion s start end_ hlt, hw, ht, h₁, h₂, hv]

/-- The time of a completion from the elapsed milliseconds. -/
theorem time_eval (s : AppState) (start : Option ℤ) (end_ : ℤ) (t : ℚ) (h : ℤ)
    (hle : toNumber start ≤ (end_ : ℚ)) (ht : timeTaken start end_ = t)
    (hh : ⌊t * 100 + 1 / 2⌋ = h) :
    (calculateResultRes s start end_ false).time = TimeField.str (JSNum.fin ((h : ℚ) / 100)) := by
  rw [time_of_completion s start end_ hle, ht, hh]

/-- The value of `timeTaken` from the elapsed milliseconds `d`, which are below
`2 ^ 53`, and the rounding of `d / 1000`. -/
theorem timeTaken_eval (start : Option ℤ) (end_ : ℤ) (d t : ℚ) (e m : ℤ)
    (hd : (end_ : ℚ) - toNumber start = d)
    (hd₁ : (2 : ℚ) ^ e ≤ d) (hd₂ : d < (2 : ℚ) ^ (e + 1))
    (hd₃ : (m : ℚ) - 1 / 2 < d / 2 ^ (e - 52)) (hd₄ : d / 2 ^ (e - 52) < (m : ℚ) + 1 / 2)
    (hm : d = (m : ℚ) * 2 ^ (e - 52))
    (ht : toDouble (d / 1000) = t) :
    timeTaken start end_ = t := by
  unfold timeTaken
  rw [hd, toDouble_eval d d e m hd₁ hd₂ hd₃ hd₄ hm, ht]


/-! ## Claims about the scorer -/

theorem correctChars_le_length (input text : JSString) :
    correctChars input text ≤ text.length := by
  rw [correctChars_eq_matchCount]
  exact matchCount_le_right input text

/-- C4 (amended): for a non-empty target text, every input buffer (also one
longer than the target) and either a timeout or an end instant strictly after
the start (a `null` start counting as instant 0), the accuracy of the result is
an integer between 0 and 100 and the speed is an integer that is at least 0. -/
theorem calculateResult_bounds (s : AppState) (start : Option ℤ) (end_ : ℤ)
    (isTimeout : Bool) (htext : s.text ≠ [])
    (htime : isTimeout = true ∨ toNumber start < (end_ : ℚ)) :
    ∃ a v : ℤ,
      (calculateResultRes s start end_ isTimeout).accuracy = JSNum.fin a ∧
      0 ≤ a ∧ a ≤ 100 ∧
      (calculateResultRes s start end_ isTimeout).speed = JSNum.fin v ∧ 0 ≤ v := by
  have hlenpos : (0 : ℚ) < (s.text.length : ℚ) := by
    have : 0 < s.text.length := List.length_pos.mpr htext
    exact_mod_cast this
  have hc : (correctChars s.input s.text : ℚ) ≤ (s.text.length : ℚ) := by
    exact_mod_cast correctChars_le_length s.input s.text
  have hc0 : (0 : ℚ) ≤ (correctChars s.input s.text : ℚ) := Nat.cast_nonneg _
  have hq0 : (0 : ℚ) ≤ (correctChars s.input s.text : ℚ) / (s.text.length : ℚ) :=
    div_nonneg hc0 hlenpos.le
  have hq1 : (correctChars s.input s.text : ℚ) / (s.text.length : ℚ) ≤ 1 :=
    (div_le_one hlenpos).mpr hc
  have hd0 := toDouble_nonneg _ hq0
  have hd1 := toDouble_le_one _ hq0 hq1
  have hp0 : (0 : ℚ) ≤
      toDouble ((correctChars s.input s.text : ℚ) / (s.text.length : ℚ)) * 100 := by
    linarith
  have hp1 : toDouble ((correctChars s.input s.text : ℚ) / (s.text.length : ℚ)) * 100
      ≤ 100 := by
    linarith
  have he0 := toDouble_nonneg _ hp0
  have he1 := toDouble_le_hundred _ hp0 hp1
  have hacc := accuracy_of_nonempty s start end_ isTimeout htext
  have ha0 : (0 : ℤ) ≤ ⌊toDouble (toDouble
      ((correctChars s.input s.text : ℚ) / (s.text.length : ℚ)) * 100) + 1 / 2⌋ := by
    rw [Int.floor_nonneg]
    linarith
  have ha1 : ⌊toDouble (toDouble
      ((correctChars s.input s.text : ℚ) / (s.text.length : ℚ)) * 100) + 1 / 2⌋
        ≤ (100 : ℤ) := by
    have hlt : ⌊toDouble (toDouble
        ((correctChars s.input s.text : ℚ) / (s.text.length : ℚ)) * 100) + 1 / 2⌋
          < (101 : ℤ) := by
      rw [Int.floor_lt]
      push_cast
      linarith
    omega
  rcases htime with hto | hlt
  · subst hto
    exact ⟨_, 0, hacc, ha0, ha1, by simpa using speed_of_timeout s start end_, le_refl 0⟩
  · cases isTimeout with
    | true => exact ⟨_, 0, hacc, ha0, ha1, by simpa using speed_of_timeout s start end_, le_refl 0⟩
    | false =>
      refine ⟨_, _, hacc, ha0, ha1, speed_of_completion s start end_ hlt, ?_⟩
      rw [Int.floor_nonneg]
      have hw : (0 : ℚ) ≤ (words s.text : ℚ) := Nat.cast_nonneg _
      have hT : (0 : ℚ) < timeTaken start end_ := timeTaken_pos start end_ hlt
      have hx₁ := toDouble_nonneg _ (div_nonneg hw hT.le)
      have hx₂ : (0 : ℚ) ≤ toDouble ((words s.text : ℚ) / timeTaken start end_) * 60 := by
        linarith
      have hx₃ := toDouble_nonneg _ hx₂
      linarith

/-- C4 (amended), at the target "abcde", the longer input "abxdefg" and a
completion 2000 ms after the start. -/
theorem calculateResult_bounds_witness :
    ∃ a v : ℤ,
      (calculateResultRes (scoring (utf16 "abcde") (utf16 "abxdefg")) (some 1000) 3000
        false).accuracy = JSNum.fin a ∧
      0 ≤ a ∧ a ≤ 100 ∧
      (calculateResultRes (scoring (utf16 "abcde") (utf16 "abxdefg")) (some 1000) 3000
        false).speed = JSNum.fin v ∧ 0 ≤ v :=
  calculateResult_bounds (scoring (utf16 "abcde") (utf16 "abxdefg")) (some 1000) 3000 false
    (by decide) (Or.inr (by norm_num [toNumber]))

/-- C4 as stated fails: for the empty target the accuracy is `NaN`, and for the
target "ab" scored with an end instant equal to the start the speed is
`Infinity`; neither result has an integer accuracy in [0, 100] together with an
integer speed that is at least 0. -/
theorem calculateResult_bounds_counterexample :
    ((calculateResultRes (scoring [] []) (some 1000) 1000 false).accuracy = JSNum.nan ∧
      ¬ ∃ a : ℤ, (calculateResultRes (scoring [] []) (some 1000) 1000 false).accuracy
          = JSNum.fin a ∧ 0 ≤ a ∧ a ≤ 100) ∧
    ((calculateResultRes (scoring (utf16 "ab") (utf16 "a")) (some 1000) 1000 false).speed
        = JSNum.posInf ∧
      ¬ ∃ v : ℤ, (calculateResultRes (scoring (utf16 "ab") (utf16 "a")) (some 1000) 1000
          false).speed = JSNum.fin v ∧ 0 ≤ v) := by
  have hacc : (calculateResultRes (scoring [] []) (some 1000) 1000 false).accuracy
      = JSNum.nan := accuracy_of_empty _ _ _ _ rfl
  have hspeed : (calculateResultRes (scoring (utf16 "ab") (utf16 "a")) (some 1000) 1000
      false).speed = JSNum.posInf :=
    speed_of_zero_elapsed _ _ _ (by norm_num [toNumber])
  refine ⟨⟨hacc, ?_⟩, ⟨hspeed, ?_⟩⟩
  · rintro ⟨a, ha, -⟩
    rw [hacc] at ha
    exact JSNum.noConfusion ha
  · rintro ⟨v, hv, -⟩
    rw [hspeed] at hv
    exact JSNum.noConfusion hv

/-- C5 (amended): the scorer has no guard against a zero denominator.  When the
target text has length 0 the accuracy of the result is `NaN`, and when a
completion is scored with an end instant equal to its start the speed of the
result is `Infinity`. -/
theorem calculateResult_zero_denominator (s : AppState) (start : Option ℤ) (end_ : ℤ)
    (isTimeout : Bool) :
    (s.text = [] → (calculateResultRes s start end_ isTimeout).accuracy = JSNum.nan) ∧
    (isTimeout = false → toNumber start = (end_ : ℚ) →
      (calculateResultRes s start end_ isTimeout).speed = JSNum.posInf) := by
  refine ⟨accuracy_of_empty s start end_ isTimeout, ?_⟩
  intro hto hz
  subst hto
  exact speed_of_zero_elapsed s start end_ hz

/-- C5 (amended), at the empty target and at the target "ab cd" completed at
the instant 1000 of its start. -/
theorem calculateResult_zero_denominator_witness :
    (calculateResultRes (scoring [] []) (some 0) 2000 false).accuracy = JSNum.nan ∧
    (calculateResultRes (scoring (utf16 "ab cd") (utf16 "ab c")) (some 1000) 1000
      false).speed = JSNum.posInf :=
  ⟨(calculateResult_zero_denominator (scoring [] []) (some 0) 2000 false).1 rfl,
   (calculateResult_zero_denominator (scoring (utf16 "ab cd") (utf16 "ab c")) (some 1000)
      1000 false).2 rfl (by norm_num [toNumber])⟩

/-- The double nearest to 4/5, multiplied by 100 and rounded to a double, is
80. -/
theorem toDouble_four_fifths :
    toDouble (((4 : ℕ) : ℚ) / ((5 : ℕ) : ℚ)) = 3602879701896397 / 4503599627370496 ∧
    toDouble ((3602879701896397 / 4503599627370496 : ℚ) * 100) = 80 :=
  ⟨toDouble_eval _ _ (-1) 7205759403792794 (by norm_num) (by norm_num) (by norm_num)
      (by norm_num) (by norm_num),
   toDouble_eval _ _ 6 5629499534213120 (by norm_num) (by norm_num) (by norm_num)
      (by norm_num) (by norm_num)⟩

/-- The double nearest to 23/40 lies below it, and its product with 100,
rounded to a double, lies below 57.5. -/
theorem toDouble_twenty_three_fortieths :
    toDouble (((23 : ℕ) : ℚ) / ((40 : ℕ) : ℚ)) = 2589569785738035 / 4503599627370496 ∧
    toDouble ((2589569785738035 / 4503599627370496 : ℚ) * 100) =
      8092405580431359 / 140737488355328 :=
  ⟨toDouble_eval _ _ (-1) 5179139571476070 (by norm_num) (by norm_num) (by norm_num)
      (by norm_num) (by norm_num),
   toDouble_eval _ _ 5 8092405580431359 (by norm_num) (by norm_num) (by norm_num)
      (by norm_num) (by norm_num)⟩

/-- C6: for a non-empty target text and every input buffer, the count the code
takes over the indices of the input equals the `correctCharCount` of the
specification, taken over the indices of the target, and the accuracy of the
result is `round(correctCharCount / targetText.length * 100)`, the division and
the multiplication being those of JavaScript numbers. -/
theorem accuracy_eq_round_correctCharCount (s : AppState) (start : Option ℤ) (end_ : ℤ)
    (isTimeout : Bool) (htext : s.text ≠ []) :
    correctChars s.input s.text = correctCharCount s.input s.text ∧
    (calculateResultRes s start end_ isTimeout).accuracy =
      JSNum.round (JSNum.mul
        (JSNum.div (JSNum.fin (correctCharCount s.input s.text)) (JSNum.fin s.text.length))
        (JSNum.fin 100)) ∧
    (calculateResultRes s start end_ isTimeout).accuracy =
      JSNum.fin (round (toDouble (toDouble
        ((correctCharCount s.input s.text : ℚ) / (s.text.length : ℚ)) * 100)) : ℤ) := by
  have hcount : correctChars s.input s.text = correctCharCount s.input s.text := by
    rw [correctChars_eq_matchCount, correctCharCount_eq_matchCount]
  refine ⟨hcount, ?_, ?_⟩
  · rw [← hcount]
    rfl
  · rw [accuracy_of_nonempty s start end_ isTimeout htext, round_eq, hcount]

/-- C6 at the target "abcde" and the input "abxde": four positions match and
the accuracy is 80. -/
theorem accuracy_eq_round_correctCharCount_witness :
    correctCharCount (utf16 "abxde") (utf16 "abcde") = 4 ∧
    (calculateResultRes (scoring (utf16 "abcde") (utf16 "abxde")) (some 0) 2000 false).accuracy
      = JSNum.fin 80 := by
  have h := accuracy_eq_round_correctCharCount (scoring (utf16 "abcde") (utf16 "abxde"))
    (some 0) 2000 false (by decide)
  have hc : correctCharCount (utf16 "abxde") (utf16 "abcde") = 4 := by decide
  refine ⟨hc, ?_⟩
  rw [h.2.2]
  have hc2 : correctCharCount (scoring (utf16 "abcde") (utf16 "abxde")).input
      (scoring (utf16 "abcde") (utf16 "abxde")).text = 4 := hc
  have hl : (scoring (utf16 "abcde") (utf16 "abxde")).text.length = 5 := by decide
  rw [hc2, hl, toDouble_four_fifths.1, toDouble_four_fifths.2, round_eq]
  have hf : ⌊(80 : ℚ) + 1 / 2⌋ = 80 := by
    rw [Int.floor_eq_iff]
    norm_num
  rw [hf]
  norm_num

/-- The rounding of the code is that of doubles: with 23 matching positions out
of 40 the product is just below 57.5 and the accuracy is 57. -/
theorem accuracy_twenty_three_of_forty :
    (calculateResultRes
      (scoring (List.replicate 40 (Fin.ofNat 97)) (List.replicate 23 (Fin.ofNat 97)))
      (some 0) 2000 false).accuracy = JSNum.fin 57 := by
  refine accuracy_eval _ _ _ _ 23 40 _ _ 57 (by decide) (by decide) (by norm_num)
    toDouble_twenty_three_fortieths.1 toDouble_twenty_three_fortieths.2 ?_
  rw [Int.floor_eq_iff]
  norm_num

/-- C8: when the timer is 0 and no result has been produced, the effect produces
a result whose speed is 0 and whose time is 60, whatever the target text, the
input buffer and the start timestamp are, and puts it at the head of the
history. -/
theorem timeout_result (s : AppState) (now : ℤ) (htimer : s.timer = 0)
    (hres : s.result = none) :
    ∃ r : Result,
      (timeoutEffect s now).result = some r ∧
      (timeoutEffect s now).resultHistory = r :: s.resultHistory ∧
      r.speed = JSNum.fin 0 ∧ r.time = TimeField.num (JSNum.fin 60) := by
  refine ⟨calculateResultRes s s.startTime now true, ?_, ?_, speed_of_timeout _ _ _,
    time_of_timeout _ _ _⟩
  · simp [timeoutEffect, calculateResult, htimer, hres]
  · simp [timeoutEffect, calculateResult, htimer, hres]

/-- C8 at the target "abcde" with the partly wrong input "abx", started at
instant 1000 and timed out at instant 61000. -/
theorem timeout_result_witness :
    ∃ r : Result,
      (timeoutEffect { scoring (utf16 "abcde") (utf16 "abx") with
          startTime := some 1000, timer := 0 } 61000).result = some r ∧
      (timeoutEffect { scoring (utf16 "abcde") (utf16 "abx") with
          startTime := some 1000, timer := 0 } 61000).resultHistory = r :: [] ∧
      r.speed = JSNum.fin 0 ∧ r.time = TimeField.num (JSNum.fin 60) :=
  timeout_result { scoring (utf16 "abcde") (utf16 "abx") with
      startTime := some 1000, timer := 0 } 61000 rfl rfl

/-! ## The session as a state machine -/

theorem runEffect_self (s : AppState) (now : ℤ) : runEffect s s now = s := by
  simp [runEffect]

theorem onChange_of_disabled (s : AppState) (val : JSString) (now₁ now₂ : ℤ)
    (h : disabled s = true) : onChange s val now₁ now₂ = s := by
  simp [onChange, h]

theorem step_change_of_disabled (s : AppState) (val : JSString) (now₁ now₂ : ℤ)
    (h : disabled s = true) : step s (Event.change val now₁ now₂) = s := by
  simp [step, onChange_of_disabled s val now₁ now₂ h, runEffect_self]

theorem tick_of_not_armed (s : AppState) (h : intervalArmed s = false) : tick s = s := by
  simp [tick, h]

theorem step_tick_of_not_armed (s : AppState) (now : ℤ) (h : intervalArmed s = false) :
    step s (Event.tick now) = s := by
  simp [step, tick_of_not_armed s h, runEffect_self]

theorem timeoutEffect_of_timer_ne (s : AppState) (now : ℤ) (h : s.timer ≠ 0) :
    timeoutEffect s now = s := by
  simp [timeoutEffect, h]

theorem timeoutEffect_of_result (s : AppState) (now : ℤ) (h : s.result.isSome = true) :
    timeoutEffect s now = s := by
  cases hr : s.result with
  | none => simp [hr] at h
  | some r => simp [timeoutEffect, hr]

theorem runEffect_of_timer_ne (prev s : AppState) (now : ℤ) (h : s.timer ≠ 0) :
    runEffect prev s now = s := by
  unfold runEffect
  split
  · rfl
  · exact timeoutEffect_of_timer_ne s now h

theorem runEffect_of_result (prev s : AppState) (now : ℤ) (h : s.result.isSome = true) :
    runEffect prev s now = s := by
  unfold runEffect
  split
  · rfl
  · exact timeoutEffect_of_result s now h

theorem handleInputChange_of_ne (s : AppState) (val : JSString) (now₁ now₂ : ℤ)
    (h : val ≠ s.text) :
    handleInputChange s val now₁ now₂ =
      { s with input := val,
               startTime := if s.startTime.isNone ∧ val.length > 0 then some now₁
                            else s.startTime } := by
  unfold handleInputChange
  simp only [h, if_false]
  split <;> rfl

theorem handleInputChange_of_eq (s : AppState) (now₁ now₂ : ℤ) :
    handleInputChange s s.text now₁ now₂ =
      { s with input := s.text,
               startTime := if s.startTime.isNone ∧ s.text.length > 0 then some now₁
                            else s.startTime,
               endTime := some now₂,
               result := some (calculateResultRes s s.startTime now₂ false),
               resultHistory := calculateResultRes s s.startTime now₂ false
                                  :: s.resultHistory } := by
  unfold handleInputChange calculateResult
  simp only [if_true]
  split <;> rfl

theorem Inv_resetTest (s₀ : AppState) (target : JSString) :
    Inv s₀.resultHistory (resetTest s₀ target) where
  timer_nonneg := by simp [resetTest]
  timer_le := by simp [resetTest]
  finished := by simp [resetTest]
  completed := by simp [resetTest]
  expired := by simp [resetTest]
  history := by simp [resetTest]

theorem not_armed_of_result (h₀ : List Result) (s : AppState) (hinv : Inv h₀ s)
    (hres : s.result.isSome = true) : intervalArmed s = false := by
  rcases hinv.finished hres with hend | htimer
  · cases he : s.endTime with
    | none => simp [he] at hend
    | some e => simp [intervalArmed, he]
  · simp [intervalArmed, htimer]

theorem step_of_result (h₀ : List Result) (s : AppState) (hinv : Inv h₀ s)
    (hres : s.result.isSome = true) (ev : Event) : step s ev = s := by
  cases ev with
  | change val now₁ now₂ =>
    exact step_change_of_disabled s val now₁ now₂ (by simp [disabled, hres])
  | tick now => exact step_tick_of_not_armed s now (not_armed_of_result h₀ s hinv hres)

theorem run_of_result (h₀ : List Result) (s : AppState) (hinv : Inv h₀ s)
    (hres : s.result.isSome = true) (evs : List Event) : run s evs = s := by
  induction evs with
  | nil => rfl
  | cons ev evs ih =>
    show run (step s ev) evs = s
    rw [step_of_result h₀ s hinv hres ev]
    exact ih


theorem disabled_eq_false_iff (s : AppState) :
    disabled s = false ↔ s.result = none ∧ s.timer ≠ 0 := by
  cases hr : s.result <;> simp [disabled, hr]

theorem step_change_of_ne (s : AppState) (val : JSString) (now₁ now₂ : ℤ)
    (hd : disabled s = false) (hne : val ≠ s.text) :
    step s (Event.change val now₁ now₂) =
      { s with input := val,
               startTime := if s.startTime.isNone ∧ val.length > 0 then some now₁
                            else s.startTime } := by
  have htimer : s.timer ≠ 0 := ((disabled_eq_false_iff s).mp hd).2
  simp only [step, onChange, hd, Bool.false_eq_true, if_false]
  rw [handleInputChange_of_ne s val now₁ now₂ hne]
  exact runEffect_of_timer_ne _ _ _ htimer

theorem step_change_of_eq (s : AppState) (now₁ now₂ : ℤ) (hd : disabled s = false) :
    step s (Event.change s.text now₁ now₂) =
      { s with input := s.text,
               startTime := if s.startTime.isNone ∧ s.text.length > 0 then some now₁
                            else s.startTime,
               endTime := some now₂,
               result := some (calculateResultRes s s.startTime now₂ false),
               resultHistory := calculateResultRes s s.startTime now₂ false
                                  :: s.resultHistory } := by
  simp only [step, onChange, hd, Bool.false_eq_true, if_false]
  rw [handleInputChange_of_eq s now₁ now₂]
  exact runEffect_of_result _ _ _ rfl

theorem step_tick_of_armed_ne_one (s : AppState) (now : ℤ) (ha : intervalArmed s = true)
    (h1 : s.timer ≠ 1) :
    step s (Event.tick now) = { s with timer := s.timer - 1 } := by
  simp only [step, tick, ha, if_true]
  apply runEffect_of_timer_ne
  show s.timer - 1 ≠ 0
  omega

theorem step_tick_of_armed_one (s : AppState) (now : ℤ) (ha : intervalArmed s = true)
    (h1 : s.timer = 1) (hres : s.result = none) :
    step s (Event.tick now) =
      { s with timer := 0,
               result := some (calculateResultRes { s with timer := 0 } s.startTime now true),
               resultHistory := calculateResultRes { s with timer := 0 } s.startTime now true
                                  :: s.resultHistory } := by
  simp only [step, tick, ha, if_true]
  have hdeps : ¬ deps { s with timer := s.timer - 1 } = deps s := by
    intro h
    have h2 : s.timer - 1 = s.timer := congrArg (fun d => d.2.1) h
    omega
  have hcond : ({ s with timer := s.timer - 1 } : AppState).timer = 0 ∧
      ({ s with timer := s.timer - 1 } : AppState).result.isNone = true :=
    ⟨by show s.timer - 1 = 0; omega, by simp [hres]⟩
  rw [runEffect, if_neg hdeps, timeoutEffect, if_pos hcond]
  simp [calculateResult, h1]

theorem Inv_step (h₀ : List Result) (s : AppState) (hinv : Inv h₀ s) (ev : Event) :
    Inv h₀ (step s ev) := by
  by_cases hres : s.result.isSome = true
  · rw [step_of_result h₀ s hinv hres ev]
    exact hinv
  · have hnone : s.result = none := by
      cases hr : s.result with
      | none => rfl
      | some r => simp [hr] at hres
    have htimer : s.timer ≠ 0 := fun h => hres (hinv.expired h)
    have hend : s.endTime = none := by
      cases he : s.endTime with
      | none => rfl
      | some e => exact absurd (hinv.completed (by simp [he])) hres
    have hhist : s.resultHistory = h₀ := by
      rw [hinv.history, hnone]
      rfl
    cases ev with
    | change val now₁ now₂ =>
      have hd : disabled s = false := (disabled_eq_false_iff s).mpr ⟨hnone, htimer⟩
      by_cases hne : val = s.text
      · subst hne
        rw [step_change_of_eq s now₁ now₂ hd]
        exact
          { timer_nonneg := hinv.timer_nonneg
            timer_le := hinv.timer_le
            finished := fun _ => Or.inl rfl
            completed := fun _ => rfl
            expired := fun _ => rfl
            history := by simp [hhist] }
      · rw [step_change_of_ne s val now₁ now₂ hd hne]
        exact
          { timer_nonneg := hinv.timer_nonneg
            timer_le := hinv.timer_le
            finished := fun h => absurd h hres
            completed := fun h => by simp [hend] at h
            expired := fun h => absurd h htimer
            history := hinv.history }
    | tick now =>
      by_cases ha : intervalArmed s = true
      · by_cases h1 : s.timer = 1
        · rw [step_tick_of_armed_one s now ha h1 hnone]
          exact
            { timer_nonneg := le_refl 0
              timer_le := by norm_num
              finished := fun _ => Or.inr rfl
              completed := fun _ => rfl
              expired := fun _ => rfl
              history := by simp [hhist] }
        · rw [step_tick_of_armed_ne_one s now ha h1]
          have hnn := hinv.timer_nonneg
          have hle := hinv.timer_le
          exact
            { timer_nonneg := by show 0 ≤ s.timer - 1; omega
              timer_le := by show s.timer - 1 ≤ 60; omega
              finished := fun h => absurd h hres
              completed := fun h => by simp [hend] at h
              expired := fun h => by
                have h' : s.timer - 1 = 0 := h
                omega
              history := hinv.history }
      · have ha' : intervalArmed s = false := by simpa using ha
        rw [step_tick_of_not_armed s now ha']
        exact hinv

theorem Inv_run (h₀ : List Result) (s : AppState) (hinv : Inv h₀ s) (evs : List Event) :
    Inv h₀ (run s evs) := by
  induction evs generalizing s with
  | nil => exact hinv
  | cons ev evs ih => exact ih (step s ev) (Inv_step h₀ s hinv ev)

theorem run_append (s : AppState) (evs evs₂ : List Event) :
    run s (evs ++ evs₂) = run (run s evs) evs₂ := by
  simp [run, List.foldl_append]


/-! ## Claims about the session -/

/-- C2: at most one result is produced per session.  After every sequence of
input-change and tick events that follows a session start, the history is the
history the session started with, with the result of the session, if there is
one, in front, so it has grown by at most one entry; and once a result is set,
no later event of the session changes the state, the result included. -/
theorem at_most_one_result (s₀ : AppState) (target : JSString) (evs later : List Event) :
    (run (resetTest s₀ target) evs).resultHistory =
        (run (resetTest s₀ target) evs).result.toList ++ s₀.resultHistory ∧
    (run (resetTest s₀ target) evs).resultHistory.length ≤ s₀.resultHistory.length + 1 ∧
    ((run (resetTest s₀ target) evs).result.isSome = true →
      run (run (resetTest s₀ target) evs) later = run (resetTest s₀ target) evs) := by
  have hinv : Inv s₀.resultHistory (run (resetTest s₀ target) evs) :=
    Inv_run _ _ (Inv_resetTest s₀ target) evs
  refine ⟨hinv.history, ?_, fun hres => run_of_result _ _ hinv hres later⟩
  rw [hinv.history]
  cases (run (resetTest s₀ target) evs).result <;> simp

/-- C2 at the target "ab": after the completing change, a further change and a
tick leave the state as it is. -/
theorem at_most_one_result_witness :
    run (run (resetTest initialState (utf16 "ab"))
          [Event.change (utf16 "a") 1000 1000, Event.change (utf16 "ab") 2000 2000])
        [Event.change (utf16 "abx") 3000 3000, Event.tick 4000] =
      run (resetTest initialState (utf16 "ab"))
        [Event.change (utf16 "a") 1000 1000, Event.change (utf16 "ab") 2000 2000] :=
  (at_most_one_result initialState (utf16 "ab")
    [Event.change (utf16 "a") 1000 1000, Event.change (utf16 "ab") 2000 2000]
    [Event.change (utf16 "abx") 3000 3000, Event.tick 4000]).2.2 rfl

/-- C3: an input change that arrives when a result is already set, by completion
or by timeout, or when the timer is 0, is ignored: the textarea is disabled
(line 128), the change does not reach `handleInputChange`, and the input
buffer, the start and end timestamps, the timer, the result and the history,
as every other state variable, are unchanged. -/
theorem change_ignored_when_finished (s : AppState) (val : JSString) (now₁ now₂ : ℤ)
    (h : s.result.isSome = true ∨ s.timer = 0) :
    step s (Event.change val now₁ now₂) = s := by
  apply step_change_of_disabled
  rcases h with h | h
  · simp [disabled, h]
  · simp [disabled, h]

/-- C3 after the completion of the target "ab": the change to "abx" is ignored. -/
theorem change_ignored_when_finished_witness :
    step (run (resetTest initialState (utf16 "ab"))
          [Event.change (utf16 "a") 1000 1000, Event.change (utf16 "ab") 2000 2000])
        (Event.change (utf16 "abx") 3000 3000) =
      run (resetTest initialState (utf16 "ab"))
        [Event.change (utf16 "a") 1000 1000, Event.change (utf16 "ab") 2000 2000] :=
  change_ignored_when_finished _ (utf16 "abx") 3000 3000 (Or.inl rfl)

/-- C9: in every state reachable from a session start the timer is between 0 and
60; a tick takes exactly 1 off the timer when the start timestamp is set, the end
timestamp is unset and the timer is positive, and changes nothing otherwise; in
particular a tick in a state with a result, with an end timestamp or with the
timer at 0 leaves every state variable unchanged. -/
theorem tick_floor (s₀ : AppState) (target : JSString) (evs : List Event) (now : ℤ)
    (s : AppState) (hs : s = run (resetTest s₀ target) evs) :
    (0 ≤ s.timer ∧ s.timer ≤ 60) ∧
    ((s.startTime.isSome = true ∧ s.endTime = none ∧ 0 < s.timer) →
      (step s (Event.tick now)).timer = s.timer - 1 ∧
      (step s (Event.tick now)).input = s.input ∧
      (step s (Event.tick now)).startTime = s.startTime ∧
      (step s (Event.tick now)).endTime = s.endTime) ∧
    (¬ (s.startTime.isSome = true ∧ s.endTime = none ∧ 0 < s.timer) →
      step s (Event.tick now) = s) ∧
    ((s.result.isSome = true ∨ s.endTime.isSome = true ∨ s.timer = 0) →
      step s (Event.tick now) = s) := by
  have hinv : Inv s₀.resultHistory s := by
    rw [hs]
    exact Inv_run _ _ (Inv_resetTest s₀ target) evs
  refine ⟨⟨hinv.timer_nonneg, hinv.timer_le⟩, ?_, ?_, ?_⟩
  · rintro ⟨hstart, hend, hpos⟩
    have ha : intervalArmed s = true := by simp [intervalArmed, hstart, hend, hpos]
    have hnone : s.result = none := by
      cases hr : s.result with
      | none => rfl
      | some r =>
        have := not_armed_of_result _ s hinv (by simp [hr])
        rw [ha] at this
        exact absurd this (by decide)
    by_cases h1 : s.timer = 1
    · rw [step_tick_of_armed_one s now ha h1 hnone]
      exact ⟨by show (0 : ℤ) = s.timer - 1; omega, rfl, rfl, rfl⟩
    · rw [step_tick_of_armed_ne_one s now ha h1]
      exact ⟨rfl, rfl, rfl, rfl⟩
  · intro hn
    apply step_tick_of_not_armed
    cases hst : s.startTime with
    | none => simp [intervalArmed, hst]
    | some t =>
      cases hen : s.endTime with
      | some e => simp [intervalArmed, hen]
      | none =>
        have : ¬ 0 < s.timer := fun hpos => hn ⟨by simp [hst], hen, hpos⟩
        simp [intervalArmed, hst, hen, this]
  · intro h
    rcases h with hres | hend | htimer
    · exact step_tick_of_not_armed s now (not_armed_of_result _ s hinv hres)
    · exact step_tick_of_not_armed s now
        (not_armed_of_result _ s hinv (hinv.completed hend))
    · exact step_tick_of_not_armed s now (by simp [intervalArmed, htimer])


/-- C9 after the first keystroke of the target "ab": the timer is armed and a
tick takes it from 60 to 59. -/
theorem tick_floor_witness :
    (step (run (resetTest initialState (utf16 "ab")) [Event.change (utf16 "a") 1000 1000])
        (Event.tick 2000)).timer =
      (run (resetTest initialState (utf16 "ab")) [Event.change (utf16 "a") 1000 1000]).timer
        - 1 :=
  ((tick_floor initialState (utf16 "ab") [Event.change (utf16 "a") 1000 1000] 2000
      (run (resetTest initialState (utf16 "ab")) [Event.change (utf16 "a") 1000 1000])
      rfl).2.1 ⟨rfl, rfl, by decide⟩).1
/-! ## Typing the target exactly -/

theorem typeExactly_eq (target : JSString) (clock : ℕ → ℤ) (k : ℕ) :
    (List.range (k + 1)).map
        (fun i => Event.change (target.take (i + 1)) (clock (i + 1)) (clock (i + 1))) =
      (List.range k).map
        (fun i => Event.change (target.take (i + 1)) (clock (i + 1)) (clock (i + 1))) ++
      [Event.change (target.take (k + 1)) (clock (k + 1)) (clock (k + 1))] := by
  rw [List.range_succ, List.map_append]
  rfl

theorem typed_disabled (s₀ : AppState) (target : JSString) (t₁ : ℤ) (k : ℕ) :
    disabled (typed s₀ target t₁ k) = false := by
  simp [disabled, typed, resetTest]

theorem run_typed (s₀ : AppState) (target : JSString) (clock : ℕ → ℤ) (k : ℕ)
    (hk : k < target.length) :
    run (resetTest s₀ target)
        ((List.range k).map
          (fun i => Event.change (target.take (i + 1)) (clock (i + 1)) (clock (i + 1)))) =
      typed s₀ target (clock 1) k := by
  induction k with
  | zero => simp [run, typed, resetTest]
  | succ k ih =>
    rw [typeExactly_eq, run_append, ih (by omega)]
    show step (typed s₀ target (clock 1) k)
      (Event.change (target.take (k + 1)) (clock (k + 1)) (clock (k + 1))) = _
    have hne : target.take (k + 1) ≠ (typed s₀ target (clock 1) k).text := by
      intro h
      have hlen := congrArg List.length h
      simp [typed, resetTest] at hlen
      omega
    rw [step_change_of_ne _ _ _ _ (typed_disabled s₀ target (clock 1) k) hne]
    cases k with
    | zero =>
      have hpos : 0 < target.length := by omega
      simp [typed, resetTest, hpos]
    | succ k => simp [typed, resetTest]

theorem run_typeExactly (s₀ : AppState) (target : JSString) (clock : ℕ → ℤ)
    (hne : target ≠ []) :
    (run (resetTest s₀ target) (typeExactly target clock)).result =
      some (calculateResultRes (typed s₀ target (clock 1) (target.length - 1))
        (typed s₀ target (clock 1) (target.length - 1)).startTime
        (clock target.length) false) := by
  have hpos : 0 < target.length := List.length_pos.mpr hne
  obtain ⟨n, hn⟩ : ∃ n, target.length = n + 1 := ⟨target.length - 1, by omega⟩
  unfold typeExactly
  rw [hn, typeExactly_eq, run_append, run_typed s₀ target clock n (by omega)]
  show (step (typed s₀ target (clock 1) n)
      (Event.change (target.take (n + 1)) (clock (n + 1)) (clock (n + 1)))).result = _
  have htake : target.take (n + 1) = (typed s₀ target (clock 1) n).text := by
    rw [← hn, List.take_length]
    rfl
  rw [htake, step_change_of_eq _ _ _ (typed_disabled s₀ target (clock 1) n)]
  rfl

theorem matchCount_take (target : JSString) (k : ℕ) :
    matchCount (target.take k) target = min k target.length := by
  induction target generalizing k with
  | nil => simp [matchCount]
  | cons a as ih =>
    cases k with
    | zero => simp [matchCount]
    | succ k =>
      simp only [List.take_succ_cons, matchCount, if_true, ih, List.length_cons]
      omega

/-- Typing a non-empty target exactly ends with an accuracy computed from the
input of the previous render, which lacks the last code unit: `n - 1` matching
positions are counted for a target of length `n`. -/
theorem typeExactly_accuracy (s₀ : AppState) (target : JSString) (clock : ℕ → ℤ)
    (hne : target ≠ []) :
    ∃ r : Result,
      (run (resetTest s₀ target) (typeExactly target clock)).result = some r ∧
      r.accuracy =
        JSNum.fin (round (toDouble (toDouble
          (((target.length - 1 : ℕ) : ℚ) / (target.length : ℚ)) * 100)) : ℤ) := by
  refine ⟨_, run_typeExactly s₀ target clock hne, ?_⟩
  have htext : (typed s₀ target (clock 1) (target.length - 1)).text ≠ [] := hne
  rw [accuracy_of_nonempty _ _ _ _ htext, round_eq, correctChars_eq_matchCount]
  have hcount : matchCount (typed s₀ target (clock 1) (target.length - 1)).input
      (typed s₀ target (clock 1) (target.length - 1)).text = target.length - 1 := by
    show matchCount (target.take (target.length - 1)) target = target.length - 1
    rw [matchCount_take]
    omega
  rw [hcount]
  rfl

theorem result_ab_cd (clock : ℕ → ℤ) :
    (run (resetTest initialState (utf16 "ab cd")) (typeExactly (utf16 "ab cd") clock)).result =
      some (calculateResultRes (typed initialState (utf16 "ab cd") (clock 1) 4)
        (some (clock 1)) (clock 5) false) :=
  run_typeExactly initialState (utf16 "ab cd") clock (by decide)

theorem accuracy_ab_cd (t₁ : ℤ) (start : Option ℤ) (end_ : ℤ) :
    (calculateResultRes (typed initialState (utf16 "ab cd") t₁ 4) start end_ false).accuracy =
      JSNum.fin 80 := by
  have hc : correctChars (typed initialState (utf16 "ab cd") t₁ 4).input
      (typed initialState (utf16 "ab cd") t₁ 4).text = 4 := by
    show correctChars (utf16 "ab c") (utf16 "ab cd") = 4
    decide
  have hl : (typed initialState (utf16 "ab cd") t₁ 4).text.length = 5 := by
    show (utf16 "ab cd").length = 5
    decide
  have h := accuracy_eval _ start end_ false 4 5 _ _ 80 hc hl (by norm_num)
    toDouble_four_fifths.1 toDouble_four_fifths.2
    (by rw [Int.floor_eq_iff]; norm_num)
  simpa using h

theorem words_ab_cd (t₁ : ℤ) : words (typed initialState (utf16 "ab cd") t₁ 4).text = 2 := by
  show words (utf16 "ab cd") = 2
  decide

/-- The elapsed time of 2000 ms is the number 2. -/
theorem timeTaken_2000 : timeTaken (some 1000) 3000 = 2 :=
  timeTaken_eval _ _ 2000 2 10 8796093022208000 (by norm_num [toNumber]) (by norm_num)
    (by norm_num) (by norm_num) (by norm_num) (by norm_num)
    (toDouble_eval _ _ 1 4503599627370496 (by norm_num) (by norm_num) (by norm_num)
      (by norm_num) (by norm_num))

/-- The elapsed time of 2016 ms is the double nearest to 2.016. -/
theorem timeTaken_2016 :
    timeTaken (some 1000) 3016 = 1134907106097365 / 562949953421312 :=
  timeTaken_eval _ _ 2016 _ 10 8866461766385664 (by norm_num [toNumber]) (by norm_num)
    (by norm_num) (by norm_num) (by norm_num) (by norm_num)
    (toDouble_eval _ _ 1 4539628424389460 (by norm_num) (by norm_num) (by norm_num)
      (by norm_num) (by norm_num))

/-- Two words in 2000 ms: the speed is 60 and the time is 2.00. -/
theorem speed_time_2000 (s : AppState) (hw : words s.text = 2) :
    (calculateResultRes s (some 1000) 3000 false).speed = JSNum.fin 60 ∧
    (calculateResultRes s (some 1000) 3000 false).time = TimeField.str (JSNum.fin 2) := by
  constructor
  · have h := speed_eval s (some 1000) 3000 2 2 1 60 60 (by norm_num [toNumber]) hw
      timeTaken_2000
      (toDouble_eval _ _ 0 4503599627370496 (by norm_num) (by norm_num) (by norm_num)
        (by norm_num) (by norm_num))
      (toDouble_eval _ _ 5 8444249301319680 (by norm_num) (by norm_num) (by norm_num)
        (by norm_num) (by norm_num))
      (by rw [Int.floor_eq_iff]; norm_num)
    simpa using h
  · have h := time_eval s (some 1000) 3000 2 200 (by norm_num [toNumber]) timeTaken_2000
      (by rw [Int.floor_eq_iff]; norm_num)
    rw [h]
    norm_num

/-- Two words in 2016 ms: the speed is 60 and the time is 2.02. -/
theorem speed_time_2016 (s : AppState) (hw : words s.text = 2) :
    (calculateResultRes s (some 1000) 3016 false).speed = JSNum.fin 60 ∧
    (calculateResultRes s (some 1000) 3016 false).time =
      TimeField.str (JSNum.fin (202 / 100)) := by
  constructor
  · have h := speed_eval s (some 1000) 3016 2 _ (558482096648127 / 562949953421312)
      (8377231449721905 / 140737488355328) 60 (by norm_num [toNumber]) hw
      timeTaken_2016
      (toDouble_eval _ _ (-1) 8935713546370032 (by norm_num) (by norm_num) (by norm_num)
        (by norm_num) (by norm_num))
      (toDouble_eval _ _ 5 8377231449721905 (by norm_num) (by norm_num) (by norm_num)
        (by norm_num) (by norm_num))
      (by rw [Int.floor_eq_iff]; norm_num)
    simpa using h
  · have h := time_eval s (some 1000) 3016 _ 202 (by norm_num [toNumber]) timeTaken_2016
      (by rw [Int.floor_eq_iff]; norm_num)
    rw [h]
    norm_num

/-- C1 fails on the code: the target "ab cd" typed exactly as "a", "ab", "ab ",
"ab c", "ab cd", the first change at instant 1000 and the last at instant 3000,
ends with accuracy 80 (speed 60, time 2.00), because the result is computed from
the input of the render before the last change. -/
theorem typeExactly_ab_cd_accuracy :
    ∃ r : Result,
      (run (resetTest initialState (utf16 "ab cd"))
        (typeExactly (utf16 "ab cd") (fun k => 500 + 500 * (k : ℤ)))).result = some r ∧
      r.accuracy = JSNum.fin 80 ∧ r.accuracy ≠ JSNum.fin 100 ∧
      r.speed = JSNum.fin 60 ∧ r.time = TimeField.str (JSNum.fin 2) := by
  have hst : (calculateResultRes
      (typed initialState (utf16 "ab cd") ((fun k : ℕ => 500 + 500 * (k : ℤ)) 1) 4)
      (some ((fun k : ℕ => 500 + 500 * (k : ℤ)) 1)) ((fun k : ℕ => 500 + 500 * (k : ℤ)) 5)
      false) =
      calculateResultRes (typed initialState (utf16 "ab cd") 1000 4) (some 1000) 3000
        false := by
    norm_num
  have hsp := speed_time_2000 (typed initialState (utf16 "ab cd") 1000 4) (words_ab_cd 1000)
  refine ⟨_, result_ab_cd _, ?_, ?_, ?_, ?_⟩
  · rw [hst]
    exact accuracy_ab_cd _ _ _
  · rw [hst, accuracy_ab_cd]
    intro h
    have h2 : (80 : ℚ) = 100 := JSNum.fin.inj h
    norm_num at h2
  · rw [hst]
    exact hsp.1
  · rw [hst]
    exact hsp.2

/-- C7 (amended): when the target is completed by an exact match in a session
whose start timestamp `t₀` was set by an earlier input change, the speed of the
result is `round(words / timeTaken * 60)` with
`timeTaken = (now₂ - t₀) / 1000`, the quotient as the code computes it and not
rounded to two decimal places, and `words` the value of
`text.trim().split(/\s+/).length`; the time of the result is `timeTaken` printed
with two decimal places. -/
theorem completion_speed (s : AppState) (t₀ now₁ now₂ : ℤ)
    (hstart : s.startTime = some t₀) (hres : s.result = none) (htimer : s.timer ≠ 0) :
    ∃ r : Result,
      (step s (Event.change s.text now₁ now₂)).result = some r ∧
      r.speed =
        JSNum.round (JSNum.mul
          (JSNum.div (JSNum.fin (words s.text))
            (JSNum.div (dateSub now₂ (some t₀)) (JSNum.fin 1000)))
          (JSNum.fin 60)) ∧
      r.time =
        TimeField.str (JSNum.toFixed2 (JSNum.div (dateSub now₂ (some t₀)) (JSNum.fin 1000))) := by
  have hd : disabled s = false := (disabled_eq_false_iff s).mpr ⟨hres, htimer⟩
  refine ⟨calculateResultRes s s.startTime now₂ false, ?_, ?_, ?_⟩
  · rw [step_change_of_eq s now₁ now₂ hd]
  · rw [hstart]
    exact speed_ops s (some t₀) now₂
  · rw [hstart]
    exact time_ops s (some t₀) now₂

/-- C7 (amended) at the target "ab cd" completed 2000 ms after the first
keystroke: the speed is 60 and the time is 2.00. -/
theorem completion_speed_witness :
    ∃ r : Result,
      (step (typed initialState (utf16 "ab cd") 1000 4)
        (Event.change (utf16 "ab cd") 3000 3000)).result = some r ∧
      r.speed = JSNum.fin 60 ∧ r.time = TimeField.str (JSNum.fin 2) := by
  obtain ⟨r, h₁, h₂, h₃⟩ :=
    completion_speed (typed initialState (utf16 "ab cd") 1000 4) 1000 3000 3000 rfl rfl
      (by decide)
  have hsp := speed_time_2000 (typed initialState (utf16 "ab cd") 1000 4) (words_ab_cd 1000)
  refine ⟨r, h₁, ?_, ?_⟩
  · rw [h₂, ← speed_ops]
    exact hsp.1
  · rw [h₃, ← time_ops]
    exact hsp.2

/-- The formula of C7 with the reported time 2.02 in the place of the elapsed
time gives 59, in exact arithmetic and in the arithmetic of the code. -/
theorem claimed_speed_2016 :
    round ((wordCount (utf16 "ab cd") : ℚ) / (202 / 100) * 60) = 59 ∧
    JSNum.round (JSNum.mul
      (JSNum.div (JSNum.fin (wordCount (utf16 "ab cd")))
        (JSNum.div (JSNum.fin 202) (JSNum.fin 100)))
      (JSNum.fin 60)) = JSNum.fin 59 := by
  have hw : wordCount (utf16 "ab cd") = 2 := by decide
  constructor
  · rw [hw, round_eq, Int.floor_eq_iff]
    norm_num
  · rw [hw]
    have h₁ : toDouble ((202 : ℚ) / 100) = 4548635623644201 / 2251799813685248 :=
      toDouble_eval _ _ 1 4548635623644201 (by norm_num) (by norm_num) (by norm_num)
        (by norm_num) (by norm_num)
    have h₂ : toDouble ((((2 : ℕ) : ℚ)) / (4548635623644201 / 2251799813685248)) =
        1114752383012499 / 1125899906842624 :=
      toDouble_eval _ _ (-1) 8918019064099992 (by norm_num) (by norm_num) (by norm_num)
        (by norm_num) (by norm_num)
    have h₃ : toDouble ((1114752383012499 / 1125899906842624 : ℚ) * 60) =
        4180321436296871 / 70368744177664 :=
      toDouble_eval_tie _ _ 5 8360642872593742 (by norm_num) (by norm_num) (by norm_num)
        (by norm_num) (by norm_num)
    have hne : (4548635623644201 / 2251799813685248 : ℚ) ≠ 0 := by norm_num
    have hf : ⌊(4180321436296871 / 70368744177664 : ℚ) + 1 / 2⌋ = 59 := by
      rw [Int.floor_eq_iff]
      norm_num
    rw [JSNum.div_fin 202 100 (by norm_num), h₁, JSNum.div_fin _ _ hne, h₂, JSNum.mul_fin, h₃,
      JSNum.round_fin, hf]
    norm_num

/-- C7 as stated fails: the target "ab cd" typed exactly, the first change at
instant 1000 and the last at instant 3016, ends with time 2.02 and speed 60,
whereas `round(wordCount / 2.02 * 60)` is 59. -/
theorem completion_speed_counterexample :
    ∃ r : Result,
      (run (resetTest initialState (utf16 "ab cd"))
        (typeExactly (utf16 "ab cd") (fun k => 496 + 504 * (k : ℤ)))).result = some r ∧
      r.time = TimeField.str (JSNum.fin (202 / 100)) ∧
      r.speed = JSNum.fin 60 ∧
      wordCount (utf16 "ab cd") = 2 ∧
      round ((wordCount (utf16 "ab cd") : ℚ) / (202 / 100) * 60) = 59 ∧
      r.speed ≠ JSNum.fin (round ((wordCount (utf16 "ab cd") : ℚ) / (202 / 100) * 60) : ℤ) ∧
      r.speed ≠ JSNum.round (JSNum.mul
        (JSNum.div (JSNum.fin (wordCount (utf16 "ab cd")))
          (JSNum.div (JSNum.fin 202) (JSNum.fin 100)))
        (JSNum.fin 60)) := by
  have hw : wordCount (utf16 "ab cd") = 2 := by decide
  have hst : (calculateResultRes
      (typed initialState (utf16 "ab cd") ((fun k : ℕ => 496 + 504 * (k : ℤ)) 1) 4)
      (some ((fun k : ℕ => 496 + 504 * (k : ℤ)) 1)) ((fun k : ℕ => 496 + 504 * (k : ℤ)) 5)
      false) =
      calculateResultRes (typed initialState (utf16 "ab cd") 1000 4) (some 1000) 3016
        false := by
    norm_num
  have hsp := speed_time_2016 (typed initialState (utf16 "ab cd") 1000 4) (words_ab_cd 1000)
  refine ⟨_, result_ab_cd _, ?_, ?_, hw, claimed_speed_2016.1, ?_, ?_⟩
  · rw [hst]
    exact hsp.2
  · rw [hst]
    exact hsp.1
  · rw [hst, hsp.1, claimed_speed_2016.1]
    intro h
    have h2 : (60 : ℚ) = ((59 : ℤ) : ℚ) := JSNum.fin.inj h
    norm_num at h2
  · rw [hst, hsp.1, claimed_speed_2016.2]
    intro h
    have h2 : (60 : ℚ) = 59 := JSNum.fin.inj h
    norm_num at h2

/-- The rounding of the code is that of doubles: the first sentence of the
corpus completed in 8640 ms gets speed 62, the product being just below 62.5,
and a completion in 1005 ms is reported as 1.00, the double nearest to 1.005
being below it. -/
theorem speed_8640_time_1005 (s : AppState)
    (hw : words s.text = words (utf16 "The quick brown fox\njumps over the lazy dog.")) :
    (calculateResultRes s (some 1000) 9640 false).speed = JSNum.fin 62 ∧
    (calculateResultRes s (some 1000) 2005 false).time = TimeField.str (JSNum.fin 1) := by
  have hw9 : words s.text = 9 := by
    rw [hw]
    decide
  have ht₁ : timeTaken (some 1000) 9640 = 607985949695017 / 70368744177664 :=
    timeTaken_eval _ _ 8640 _ 13 4749890231992320 (by norm_num [toNumber]) (by norm_num)
      (by norm_num) (by norm_num) (by norm_num) (by norm_num)
      (toDouble_eval _ _ 3 4863887597560136 (by norm_num) (by norm_num) (by norm_num)
        (by norm_num) (by norm_num))
  have ht₂ : timeTaken (some 1000) 2005 = 1131529406376837 / 1125899906842624 :=
    timeTaken_eval _ _ 1005 _ 9 8840073487319040 (by norm_num [toNumber]) (by norm_num)
      (by norm_num) (by norm_num) (by norm_num) (by norm_num)
      (toDouble_eval _ _ 0 4526117625507348 (by norm_num) (by norm_num) (by norm_num)
        (by norm_num) (by norm_num))
  constructor
  · have h := speed_eval s (some 1000) 9640 9 _ (2345624805922133 / 2251799813685248)
      (8796093022207999 / 140737488355328) 62 (by norm_num [toNumber]) hw9 ht₁
      (toDouble_eval _ _ 0 4691249611844266 (by norm_num) (by norm_num) (by norm_num)
        (by norm_num) (by norm_num))
      (toDouble_eval _ _ 5 8796093022207999 (by norm_num) (by norm_num) (by norm_num)
        (by norm_num) (by norm_num))
      (by rw [Int.floor_eq_iff]; norm_num)
    simpa using h
  · have h := time_eval s (some 1000) 2005 _ 100 (by norm_num [toNumber]) ht₂
      (by rw [Int.floor_eq_iff]; norm_num)
    rw [h]
    norm_num

/-! ## Counting words -/

theorem splitOnP_head (cs : JSString) :
    ∃ h t, cs.splitOnP isWhiteSpace = h :: t ∧ (h.isEmpty = !headTok cs) := by
  cases cs with
  | nil => exact ⟨[], [], by simp, by simp [headTok]⟩
  | cons c cs =>
    rw [List.splitOnP_cons]
    by_cases hc : isWhiteSpace c = true
    · exact ⟨[], cs.splitOnP isWhiteSpace, by simp [hc], by simp [headTok, hc]⟩
    · obtain ⟨h, t, hS⟩ := List.exists_cons_of_ne_nil (List.splitOnP_ne_nil isWhiteSpace cs)
      refine ⟨c :: h, t, by simp [hc, hS], ?_⟩
      have hc' : isWhiteSpace c = false := by simpa using hc
      simp [headTok, hc']

theorem tokens_cons_of_ws (c : CodeUnit) (cs : JSString) (hc : isWhiteSpace c = true) :
    tokens (c :: cs) = tokens cs := by
  simp [tokens, List.splitOnP_cons, hc]

theorem tokens_cons_of_not_ws (c : CodeUnit) (cs : JSString) (hc : isWhiteSpace c = false) :
    (tokens (c :: cs)).length = (tokens cs).length + (if headTok cs = true then 0 else 1) := by
  obtain ⟨h, t, hS, hh⟩ := splitOnP_head cs
  unfold tokens
  rw [List.splitOnP_cons, hS]
  cases hk : headTok cs with
  | true =>
    have hne : h.isEmpty = false := by simpa [hk] using hh
    simp [hc, List.filter_cons, hne]
  | false =>
    have he : h.isEmpty = true := by simpa [hk] using hh
    simp [hc, List.filter_cons, he]

theorem splitGo_length (cs : JSString) (inSep : Bool) (cur : JSString) :
    (splitGo cs inSep cur).length =
      (tokens cs).length + (if (inSep || headTok cs) = true then 0 else 1) +
        (if finalSep cs inSep = true then 1 else 0) := by
  induction cs generalizing inSep cur with
  | nil => cases inSep <;> simp [splitGo, tokens, finalSep, headTok]
  | cons c cs ih =>
    by_cases hc : isWhiteSpace c = true
    · rw [tokens_cons_of_ws c cs hc]
      cases inSep with
      | true =>
        simp only [splitGo, hc, if_true, finalSep]
        rw [ih true cur]
        simp
      | false =>
        simp only [splitGo, hc, if_true, finalSep, Bool.false_eq_true, if_false,
          List.length_cons]
        rw [ih true []]
        simp [headTok, hc]
        omega
    · have hc' : isWhiteSpace c = false := by simpa using hc
      rw [tokens_cons_of_not_ws c cs hc']
      simp only [splitGo, hc', finalSep, Bool.false_eq_true, if_false]
      rw [ih false (cur ++ [c])]
      simp [headTok, hc']

theorem finalSep_eq_getLast (cs : JSString) (inSep : Bool) (h : cs ≠ []) :
    finalSep cs inSep = isWhiteSpace (cs.getLast h) := by
  induction cs generalizing inSep with
  | nil => exact absurd rfl h
  | cons c cs ih =>
    cases cs with
    | nil => simp [finalSep]
    | cons d ds =>
      rw [List.getLast_cons (List.cons_ne_nil d ds)]
      exact ih (isWhiteSpace c) (List.cons_ne_nil d ds)

theorem headTok_eq_head (cs : JSString) (h : cs ≠ []) :
    headTok cs = !isWhiteSpace (cs.head h) := by
  cases cs with
  | nil => exact absurd rfl h
  | cons c cs => rfl

theorem trim_eq_rdropWhile (text : JSString) :
    trim text = List.rdropWhile isWhiteSpace (text.dropWhile isWhiteSpace) :=
  rfl

theorem trim_eq_nil_iff (text : JSString) :
    trim text = [] ↔ text.all isWhiteSpace = true := by
  rw [trim_eq_rdropWhile, List.rdropWhile_eq_nil_iff, List.all_eq_true]
  constructor
  · intro h
    by_cases hd : text.dropWhile isWhiteSpace = []
    · exact List.dropWhile_eq_nil_iff.mp hd
    · have h1 := List.head_dropWhile_not isWhiteSpace text hd
      have h2 := h _ (List.head_mem hd)
      rw [h1] at h2
      exact absurd h2 (by decide)
  · intro h x hx
    have hd : text.dropWhile isWhiteSpace = [] := List.dropWhile_eq_nil_iff.mpr h
    rw [hd] at hx
    exact absurd hx (List.not_mem_nil x)

theorem trim_ends (text : JSString) (h : trim text ≠ []) :
    headTok (trim text) = true ∧ finalSep (trim text) false = false := by
  constructor
  · rw [headTok_eq_head _ h]
    have hpre : trim text <+: text.dropWhile isWhiteSpace := by
      rw [trim_eq_rdropWhile]
      exact List.rdropWhile_prefix _ _
    have hd : text.dropWhile isWhiteSpace ≠ [] := by
      intro h0
      rw [h0] at hpre
      exact h (List.prefix_nil.mp hpre)
    rw [List.IsPrefix.head hpre h, List.head_dropWhile_not isWhiteSpace text hd]
    rfl
  · rw [finalSep_eq_getLast _ _ h]
    have := List.rdropWhile_last_not isWhiteSpace (text.dropWhile isWhiteSpace) h
    simpa using this

/-- C10 (amended): for a target text with at least one code unit that is not
white space, `text.trim().split(/\s+/).length` is the number of
white-space-delimited tokens of the trimmed text, line breaks being separators;
for the empty text and for a text of white space only it is 1, although there is
no token. -/
theorem words_eq_wordCount (text : JSString) :
    words text = (if text.all isWhiteSpace = true then 1 else wordCount text) ∧
    (text.all isWhiteSpace = true → wordCount text = 0) := by
  by_cases hall : text.all isWhiteSpace = true
  · have hnil : trim text = [] := (trim_eq_nil_iff text).mpr hall
    refine ⟨?_, fun _ => ?_⟩
    · simp [words, splitWhiteSpace, hnil, splitGo, hall]
    · simp [wordCount, hnil, tokens]
  · have hne : trim text ≠ [] := fun h => hall ((trim_eq_nil_iff text).mp h)
    obtain ⟨hhead, hlast⟩ := trim_ends text hne
    refine ⟨?_, fun h => absurd h hall⟩
    rw [if_neg hall]
    unfold words splitWhiteSpace wordCount
    rw [splitGo_length, hhead, hlast]
    simp

/-- C10 as stated fails: the empty text and the text of two spaces have no
token, and the code counts one word for each. -/
theorem words_counterexample :
    (words [] = 1 ∧ wordCount [] = 0) ∧
    (words (utf16 "  ") = 1 ∧ wordCount (utf16 "  ") = 0) := by
  decide

/-- The witness of C10: the first sentence of the corpus has 9 words, by the
code and by the specification. -/
theorem words_first_sentence :
    words (utf16 "The quick brown fox\njumps over the lazy dog.") = 9 ∧
    wordCount (utf16 "The quick brown fox\njumps over the lazy dog.") = 9 := by
  decide

/-- C5 as stated fails.  Scored on the empty target, the accuracy is `NaN`, not
0; and in the session that types the target "ab" with both changes at instant
1000, the elapsed time is 0 and the speed of the result is `Infinity`, not 0. -/
theorem zero_denominator_counterexample :
    ((calculateResultRes (scoring [] []) none 1000 false).accuracy = JSNum.nan ∧
      (calculateResultRes (scoring [] []) none 1000 false).accuracy ≠ JSNum.fin 0) ∧
    ∃ r : Result,
      (run (resetTest initialState (utf16 "ab"))
        [Event.change (utf16 "a") 1000 1000, Event.change (utf16 "ab") 1000 1000]).result
          = some r ∧
      r.speed = JSNum.posInf ∧ r.speed ≠ JSNum.fin 0 := by
  have hacc : (calculateResultRes (scoring [] []) none 1000 false).accuracy = JSNum.nan :=
    accuracy_of_empty _ _ _ _ rfl
  have hrun : (run (resetTest initialState (utf16 "ab"))
      [Event.change (utf16 "a") 1000 1000, Event.change (utf16 "ab") 1000 1000]).result =
      some (calculateResultRes (typed initialState (utf16 "ab") 1000 1) (some 1000) 1000
        false) :=
    run_typeExactly initialState (utf16 "ab") (fun _ => 1000) (by decide)
  have hspeed : (calculateResultRes (typed initialState (utf16 "ab") 1000 1) (some 1000) 1000
      false).speed = JSNum.posInf :=
    speed_of_zero_elapsed _ _ _ (by norm_num [toNumber])
  refine ⟨⟨hacc, ?_⟩, _, hrun, hspeed, ?_⟩
  · rw [hacc]
    exact fun h => JSNum.noConfusion h
  · rw [hspeed]
    exact fun h => JSNum.noConfusion h

/-- Every sentence of the corpus is non-empty and contains a code unit that is
not white space, and the code counts its words as the specification does. -/
theorem sentences_words :
    ∀ t ∈ sentences, t ≠ [] ∧ t.all isWhiteSpace = false ∧ words t = wordCount t := by
  decide


end TypingTest
